import Mathlib

/-!
Verification of the endpoint-probing and schema-validation engine
(`src/utils.rs`): URL composition (`url_join`), URL template substitution
(`replace_vars`), HTTP probing (`ping_url`), identifier extraction
(`get_ids`) and schema validation (`valid_schema`), shallowly embedded in
Lean.  JSON documents are modelled by an inductive `Json`; the HTTP world
is an explicit oracle giving the transport result of each GET and POST;
process aborts (`expect`/`unwrap` panics) are modelled by `Except.error`.
-/

/-- JSON values, mirroring `serde_json::Value`. -/
inductive Json where
  | null
  | bool (b : Bool)
  | num (n : Int)
  | str (s : String)
  | arr (xs : List Json)
  | obj (fields : List (String × Json))

/-- Mirrors `Value::as_object` (returns the key/value pairs). -/
def Json.asObject : Json → Option (List (String × Json))
  | .obj fields => some fields
  | _ => none

/-- Mirrors `Value::as_array`. -/
def Json.asArray : Json → Option (List Json)
  | .arr xs => some xs
  | _ => none

/-- Mirrors `Value::as_str`. -/
def Json.asStr : Json → Option String
  | .str s => some s
  | _ => none

/-- Mirrors `serde_json::Map::get`. -/
def jGet (fields : List (String × Json)) (key : String) : Option Json :=
  (fields.find? (fun p => p.1 == key)).map (fun p => p.2)

/-- Mirrors `value[key]` (`ops::Index` on `Value`): yields the entry when
the value is an object containing the key, and `Null` otherwise. -/
def jIndex (j : Json) (key : String) : Json :=
  match j with
  | .obj fields => (jGet fields key).getD .null
  | _ => .null

/-- A parsed absolute URL, mirroring `url::Url`.  The `path` field holds
the serialized (already percent-encoded) path, as `Url::path` does. -/
structure Url where
  scheme : String
  username : String
  password : Option String
  host : String
  port : Option Nat
  path : String
  query : Option String
  fragment : Option String
deriving DecidableEq

/-- Components of a file-system path, mirroring `std::path::Component`
(Unix): the root separator, `.`, `..`, or a normal segment. -/
inductive PComp where
  | root
  | cur
  | parent
  | normal (s : String)
deriving DecidableEq

/-- Splits a character list on `'/'`, keeping empty pieces (the raw
separator split underlying `Path::components`). -/
def splitOnSlash : List Char → List (List Char)
  | [] => [[]]
  | c :: rest =>
    if c = '/' then [] :: splitOnSlash rest
    else
      match splitOnSlash rest with
      | [] => [[c]]
      | g :: gs => (c :: g) :: gs

/-- Classifies one non-empty piece as `.`, `..`, or a normal segment. -/
def pieceToComp (p : List Char) : PComp :=
  if p = ['.'] then .cur
  else if p = ['.', '.'] then .parent
  else .normal (String.mk p)

/-- Non-empty pieces of a path string, classified. -/
def filteredComps (cs : List Char) : List PComp :=
  ((splitOnSlash cs).filter (fun p => p ≠ [])).map pieceToComp

/-- Mirrors `Path::components` on Unix: repeated separators are ignored,
`.` segments are removed except at the start of a relative path, and a
leading `/` yields the root component. -/
def pathComponents (s : String) : List PComp :=
  match s.data with
  | '/' :: _ => PComp.root :: (filteredComps s.data).filter (fun c => c ≠ PComp.cur)
  | _ =>
    match filteredComps s.data with
    | PComp.cur :: rest => PComp.cur :: rest.filter (fun c => c ≠ PComp.cur)
    | comps => comps.filter (fun c => c ≠ PComp.cur)

/-- Rendering of one component, as `Path::new` would receive it. -/
def compStr : PComp → String
  | .root => "/"
  | .cur => "."
  | .parent => ".."
  | .normal s => s

/-- Last character of a string fragment. -/
def lastChar (cs : List Char) : Option Char :=
  cs.foldl (fun _ c => some c) none

/-- Mirrors `PathBuf::push` for a single component: pushing the root
component replaces the buffer, otherwise a separator is inserted when the
buffer is non-empty and does not already end with one. -/
def pushComp (acc : String) (c : PComp) : String :=
  match c with
  | .root => "/"
  | c =>
    if acc.data = [] then compStr c
    else if lastChar acc.data = some '/' then acc ++ compStr c
    else acc ++ "/" ++ compStr c

/-- Mirrors `PathBuf::from_iter` followed by `to_str`: fold `push` over
the components starting from the empty buffer. -/
def renderComps (cs : List PComp) : String :=
  cs.foldl pushComp ""

/-- Mirrors `utils::url_join`: clone the root URL and rewrite only its
path to the root path components chained with the relative path
components minus the first. -/
def url_join (url1 url2 : Url) : Url :=
  { url1 with
    path := renderComps (pathComponents url1.path ++ (pathComponents url2.path).drop 1) }

/-- Serialization of the userinfo part of a URL. -/
def userinfoStr (u : Url) : String :=
  if u.username = "" ∧ u.password = none then ""
  else
    u.username ++ (match u.password with | some p => ":" ++ p | none => "") ++ "@"

/-- Mirrors `Url::to_string` (the stored path is already encoded). -/
def Url.toString (u : Url) : String :=
  u.scheme ++ "://" ++ userinfoStr u ++ u.host ++
  (match u.port with | some p => ":" ++ Nat.repr p | none => "") ++
  u.path ++
  (match u.query with | some q => "?" ++ q | none => "") ++
  (match u.fragment with | some f => "#" ++ f | none => "")

/-- Splits off the scheme at the first `"://"`. -/
def splitScheme : List Char → Option (List Char × List Char)
  | [] => none
  | c :: rest =>
    if c = ':' then
      match rest with
      | '/' :: '/' :: tail => some ([], tail)
      | _ => none
    else
      match splitScheme rest with
      | some (sch, tail) => some (c :: sch, tail)
      | none => none

/-- Takes characters until one of the stop characters is reached; returns
the taken part and the rest (stop character included). -/
def takeUntil (stop : List Char) : List Char → (List Char × List Char)
  | [] => ([], [])
  | c :: rest =>
    if stop.contains c then ([], c :: rest)
    else
      match takeUntil stop rest with
      | (a, b) => (c :: a, b)

/-- Decimal digits to a number (the port parser). -/
def digitsToNat (cs : List Char) : Option Nat :=
  if cs = [] then none
  else
    cs.foldl
      (fun acc c =>
        match acc with
        | none => none
        | some n => if '0' ≤ c ∧ c ≤ '9' then some (n * 10 + (c.toNat - 48)) else none)
      (some 0)

/-- Percent-encoding of one path character: the WHATWG path set members
relevant here (braces, space, quotes, angle brackets, backtick). -/
def encodeChar (c : Char) : List Char :=
  if c = '{' then "%7B".data
  else if c = '}' then "%7D".data
  else if c = ' ' then "%20".data
  else if c = '"' then "%22".data
  else if c = '<' then "%3C".data
  else if c = '>' then "%3E".data
  else [c]

/-- Percent-encodes a raw path. -/
def encodePath (cs : List Char) : List Char :=
  cs.foldr (fun c acc => encodeChar c ++ acc) []

/-- Mirrors `Url::parse` for hierarchical `scheme://` URLs: splits off
scheme, userinfo, host, port, path, query and fragment, percent-encoding
the path.  Returns `none` where the crate would return a parse error. -/
def Url.parse (s : String) : Option Url :=
  match splitScheme s.data with
  | none => none
  | some (schCs, rest) =>
    if schCs = [] then none
    else
      match takeUntil ['/', '?', '#'] rest with
      | (auth, tail1) =>
        let (userinfo, hostport) :=
          if auth.contains '@' then
            match takeUntil ['@'] auth with
            | (u, h) => (u, h.drop 1)
          else ([], auth)
        let (uname, pw) :=
          if userinfo.contains ':' then
            match takeUntil [':'] userinfo with
            | (a, b) => (a, some (String.mk (b.drop 1)))
          else (userinfo, none)
        match takeUntil [':'] hostport with
        | (hostCs, portPart) =>
          let portVal : Option (Option Nat) :=
            if portPart = [] then some none
            else
              match digitsToNat (portPart.drop 1) with
              | some p => some (some p)
              | none => none
          match portVal with
          | none => none
          | some port =>
            if hostCs = [] then none
            else
              match takeUntil ['?', '#'] tail1 with
              | (pathCs, tail2) =>
                match takeUntil ['#'] tail2 with
                | (queryCs, fragCs) =>
                  some {
                    scheme := String.mk schCs
                    username := String.mk uname
                    password := pw
                    host := String.mk hostCs
                    port := port
                    path := if pathCs = [] then "/" else String.mk (encodePath pathCs)
                    query := match queryCs with | '?' :: qs => some (String.mk qs) | _ => none
                    fragment := match fragCs with | '#' :: fs => some (String.mk fs) | _ => none }

/-- Mirrors `str::replace` on character lists: replaces every
non-overlapping occurrence of `pat` left to right.  The first argument is
fuel, instantiated with the length of the subject. -/
def replChars : Nat → List Char → List Char → List Char → List Char
  | 0, _, _, s => s
  | _ + 1, _, _, [] => []
  | n + 1, pat, rep, c :: rest =>
    if pat.isPrefixOf (c :: rest) && !pat.isEmpty then
      rep ++ replChars n pat rep (List.drop (pat.length - 1) rest)
    else
      c :: replChars n pat rep rest

/-- Mirrors `str::replace`. -/
def replaceAll (s pat rep : String) : String :=
  String.mk (replChars s.data.length pat.data rep.data s.data)

/-- Mirrors `utils::replace_vars`: each loop iteration recomputes the
working string from `url.to_string()` (not from the running result) and
replaces the encoded placeholder `%7Bkey%7D` by the value; the final
string is re-parsed.  `Url::parse(..).unwrap()` panicking is modelled by
`none`. -/
def replace_vars (url : Url) (vars : List (String × String)) : Option Url :=
  Url.parse
    (vars.foldl
      (fun _acc kv => replaceAll (Url.toString url) ("%7B" ++ kv.1 ++ "%7D") kv.2)
      (Url.toString url))

/-- One HTTP response: its status code and its body, the latter modelled
by the result of JSON-parsing it (`none` when the body is not JSON). -/
structure HttpResponse where
  status : Nat
  body : Option Json

/-- Result of one transport attempt, mirroring
`Result<reqwest::Response, reqwest::Error>`; a transport error carries
`reqwest::Error::is_status`. -/
inductive TransportResult where
  | ok (r : HttpResponse)
  | err (isStatusError : Bool)

/-- The HTTP world: what GET and POST to each URL return. -/
structure World where
  get : Url → TransportResult
  post : Url → TransportResult

/-- The error type of the verifier, mirroring `error::VerifierError`
(the variants reached from the embedded functions). -/
inductive VerifierError where
  | UnresponsiveEndpoint (u : Url)
  | RequestError (isStatusError : Bool)
  | BadStatus
  | ResponseIsNotJson
  | BadResponse (report : String)

/-- Mirrors `StatusCode::is_success` (2xx). -/
def isSuccess (status : Nat) : Bool :=
  200 ≤ status && status < 300

/-- Mirrors `response.json()` followed by the error mapping in
`ping_url`. -/
def parseBody (r : HttpResponse) : Except VerifierError Json :=
  match r.body with
  | some j => Except.ok j
  | none => Except.error VerifierError.ResponseIsNotJson

/-- Mirrors `utils::ping_url`: GET; on 2xx parse the body; on exactly 405
retry with POST (2xx parses the body, other statuses give
`UnresponsiveEndpoint`, transport failure gives `RequestError`); on any
other non-success status give `UnresponsiveEndpoint`; on GET transport
failure give `BadStatus` when the error is a status error and
`RequestError` otherwise. -/
def ping_url (w : World) (endpoint_url : Url) : Except VerifierError Json :=
  match w.get endpoint_url with
  | .ok response =>
    if isSuccess response.status then parseBody response
    else if response.status == 405 then
      match w.post endpoint_url with
      | .ok response2 =>
        if isSuccess response2.status then parseBody response2
        else Except.error (VerifierError.UnresponsiveEndpoint endpoint_url)
      | .err e => Except.error (VerifierError.RequestError e)
    else Except.error (VerifierError.UnresponsiveEndpoint endpoint_url)
  | .err e =>
    if e then Except.error VerifierError.BadStatus
    else Except.error (VerifierError.RequestError e)

/-- The identifier of one result object: `instance["id"].as_str()`, else
`variantInternalId`, else `cohortId`, as in `get_ids`. -/
def pickId (inst : Json) : Option String :=
  ((jIndex inst "id").asStr).orElse
    (fun _ => ((jIndex inst "variantInternalId").asStr).orElse
      (fun _ => (jIndex inst "cohortId").asStr))

/-- Maps the result objects of one `results` array to their identifiers;
a result with none of the three fields is the `unwrap` panic, modelled by
`Except.error`. -/
def extractResults : List Json → Except String (List String)
  | [] => Except.ok []
  | inst :: rest =>
    match pickId inst with
    | none => Except.error "called Option unwrap on a None value"
    | some i =>
      match extractResults rest with
      | Except.ok is2 => Except.ok (i :: is2)
      | Except.error e => Except.error e

/-- Extraction from one element of `resultSets`: it must be an object
with a `results` array; each `expect` panic is an `Except.error`. -/
def extractResultSet (rs : Json) : Except String (List String) :=
  match rs.asObject with
  | none => Except.error "resultSet inside resultSets property is not an object"
  | some o =>
    match jGet o "results" with
    | none => Except.error "No results property was found"
    | some r =>
      match r.asArray with
      | none => Except.error "results property is not an array"
      | some xs => extractResults xs

/-- The `flat_map` over the `resultSets` array, in encounter order. -/
def extractResultSets : List Json → Except String (List String)
  | [] => Except.ok []
  | rs :: rest =>
    match extractResultSet rs with
    | Except.error e => Except.error e
    | Except.ok ids =>
      match extractResultSets rest with
      | Except.ok more => Except.ok (ids ++ more)
      | Except.error e => Except.error e

/-- The navigation of the `Ok` branch of `get_ids`: top-level object →
`response` object → `resultSets` array → per result set the `results`
array → identifiers.  Every `expect`/`unwrap` panic of the source is an
`Except.error`. -/
def extract_ids (response : Json) : Except String (List String) :=
  match response.asObject with
  | none => Except.error "JSON is not an object"
  | some top =>
    match jGet top "response" with
    | none => Except.error "No response property was found"
    | some resp =>
      match resp.asObject with
      | none => Except.error "response is not an object"
      | some respO =>
        match jGet respO "resultSets" with
        | none => Except.error "No resultSets property was found"
        | some rs =>
          match rs.asArray with
          | none => Except.error "resultSets property is not an array"
          | some arr => extractResultSets arr

/-- Mirrors `utils::get_ids`: join the URLs, probe, and on probe failure
log and return the empty vector; on success run the extraction (whose
panics are `Except.error`). -/
def get_ids (w : World) (root_url entity_url : Url) : Except String (List String) :=
  match ping_url w (url_join root_url entity_url) with
  | Except.ok response => extract_ids response
  | Except.error _ => Except.ok []

/-- One element of `resultSets` has the expected shape: an object with a
`results` array. -/
def resultSetShaped (rs : Json) : Bool :=
  match rs.asObject with
  | none => false
  | some o =>
    match jGet o "results" with
    | none => false
    | some r => r.asArray.isSome

/-- All structural nodes the extraction expects are present and of the
right type. -/
def wellShaped (j : Json) : Bool :=
  match j.asObject with
  | none => false
  | some top =>
    match jGet top "response" with
    | none => false
    | some resp =>
      match resp.asObject with
      | none => false
      | some respO =>
        match jGet respO "resultSets" with
        | none => false
        | some rs =>
          match rs.asArray with
          | none => false
          | some arr => arr.all resultSetShaped

/-- The `resultSets` elements of a response (empty where the shape is
missing); navigation helper for stating properties. -/
def resultSetsOf (j : Json) : List Json :=
  match j.asObject with
  | none => []
  | some top =>
    match jGet top "response" with
    | none => []
    | some resp =>
      match resp.asObject with
      | none => []
      | some respO =>
        match jGet respO "resultSets" with
        | none => []
        | some rs => rs.asArray.getD []

/-- The `results` elements of one result set (empty where the shape is
missing). -/
def resultsOf (rs : Json) : List Json :=
  match rs.asObject with
  | none => []
  | some o =>
    match jGet o "results" with
    | none => []
    | some r => r.asArray.getD []

/-- Every result object carries at least one of the three identifier
fields. -/
def allIdsPresent (j : Json) : Bool :=
  (resultSetsOf j).all (fun rs => (resultsOf rs).all (fun inst => (pickId inst).isSome))

/-- Every `results` array of the response is empty. -/
def allResultsEmpty (j : Json) : Bool :=
  (resultSetsOf j).all (fun rs => (resultsOf rs).isEmpty)

/-- Spec-level identifier choice, written from the words of the spec: a
string extracted from the candidate fields `id`, `variantInternalId`,
`cohortId`, checked in that priority order. -/
def spec_pickId (inst : Json) : Option String :=
  match inst with
  | Json.obj fs =>
    match jGet fs "id" with
    | some (Json.str s) => some s
    | _ =>
      match jGet fs "variantInternalId" with
      | some (Json.str s) => some s
      | _ =>
        match jGet fs "cohortId" with
        | some (Json.str s) => some s
        | _ => none
  | _ => none

/-- Spec-level extraction, written from the words of the spec: the
identifiers of all result objects, flattened in encounter order across
`resultSets` and `results`. -/
def spec_extract_ids (j : Json) : List String :=
  ((resultSetsOf j).map (fun rs => (resultsOf rs).filterMap spec_pickId)).flatten

/-- One schema-validation violation, mirroring
`jsonschema::ValidationError`: its kind, its `Display` message, and its
instance path. -/
structure VError where
  kind : String
  message : String
  instancePath : String
deriving DecidableEq

/-- A compiled JSON schema, modelled by its validation behaviour:
`none` mirrors `Ok(())`, `some errors` mirrors the error iterator. -/
structure JSONSchema where
  validateRaw : Json → Option (List VError)

/-- Mirrors `utils::valid_schema`: on success return the instance clone;
on failure push each violation message followed by a newline into the
report and return `BadResponse` with it. -/
def valid_schema (json_schema : JSONSchema) (inst : Json) : Except VerifierError Json :=
  match json_schema.validateRaw inst with
  | none => Except.ok inst
  | some errors =>
    Except.error (VerifierError.BadResponse
      (errors.foldl (fun er e => er ++ e.message ++ "\n") ""))

/-- Spec-level rendering of one violation as the claim states it:
kind, message and instance path. -/
def claimRender (e : VError) : String :=
  e.kind ++ " — " ++ e.message ++ " (" ++ e.instancePath ++ ")"

/-- The report the source actually builds: every message, each followed
by a newline. -/
def concatReports : List VError → String
  | [] => ""
  | e :: rest => e.message ++ "\n" ++ concatReports rest

/-- Substring test (decidable), used to state what a report mentions. -/
def containsStr (s pat : String) : Bool :=
  s.data.tails.any (fun t => pat.data.isPrefixOf t)

/-- Sample root URL for concrete instantiations. -/
def sampleRoot : Url :=
  { scheme := "https", username := "", password := none, host := "x.com",
    port := none, path := "/a/b", query := none, fragment := none }

/-- Sample entity-relative URL. -/
def sampleEntity : Url := { sampleRoot with path := "/c/d" }

/-- Sample JSON body. -/
def sampleJson : Json := Json.str "pong"

/-- A world whose GET always answers 200 with a JSON body. -/
def okWorld : World :=
  { get := fun _ => .ok ⟨200, some sampleJson⟩, post := fun _ => .err false }

/-- A world whose GET always answers 404. -/
def notFoundWorld : World :=
  { get := fun _ => .ok ⟨404, none⟩, post := fun _ => .err false }

/-- A world whose GET always fails at the transport level. -/
def errWorld : World :=
  { get := fun _ => .err false, post := fun _ => .err false }

/-- A world answering 405 on GET and 200 with a JSON body on POST. -/
def fallbackWorld : World :=
  { get := fun _ => .ok ⟨405, none⟩, post := fun _ => .ok ⟨200, some sampleJson⟩ }

/-- A world answering 405 on GET whose POST fails at the transport
level. -/
def postFailWorld : World :=
  { get := fun _ => .ok ⟨405, none⟩, post := fun _ => .err false }

/-- The example response of the spec:
`{"response":{"resultSets":[{"results":[{"id":"a"},{"variantInternalId":"b"}]}]}}`. -/
def exampleResponse : Json :=
  Json.obj [("response", Json.obj [("resultSets", Json.arr [
    Json.obj [("results", Json.arr [
      Json.obj [("id", Json.str "a")],
      Json.obj [("variantInternalId", Json.str "b")]])]])])]

/-- A well-shaped response with an empty `resultSets` array. -/
def emptyResponse : Json :=
  Json.obj [("response", Json.obj [("resultSets", Json.arr [])])]

/-- A world whose GET answers 200 with the empty well-shaped response. -/
def emptyWorld : World :=
  { get := fun _ => .ok ⟨200, some emptyResponse⟩, post := fun _ => .err false }

/-- A world whose GET answers 200 with the example response. -/
def exampleWorld : World :=
  { get := fun _ => .ok ⟨200, some exampleResponse⟩, post := fun _ => .err false }

/-- The URL serialized as `https://x.com/%7Ba%7D/%7Bb%7D`, i.e. parsed
from `https://x.com/{a}/{b}`. -/
def braceUrl : Url :=
  { scheme := "https", username := "", password := none, host := "x.com",
    port := none, path := "/%7Ba%7D/%7Bb%7D", query := none, fragment := none }

/-- A schema rejecting every instance with one violation whose kind and
instance path are distinctive. -/
def schemaCex : JSONSchema :=
  ⟨fun _ => some [⟨"required", "missing property", "/x"⟩]⟩

/-- A schema accepting every instance. -/
def schemaOk : JSONSchema := ⟨fun _ => none⟩

/-- A world whose GET answers 200 with a JSON body that is not even an
object. -/
def malformedWorld : World :=
  { get := fun _ => .ok ⟨200, some Json.null⟩, post := fun _ => .err false }

/-- The URL of the repository test `test_replace_vars`, parsed from
`https://google.com/biosamples/{id}`. -/
def googleUrl : Url :=
  { scheme := "https", username := "", password := none, host := "google.com",
    port := none, path := "/biosamples/%7Bid%7D", query := none, fragment := none }

/-- A good path segment: non-empty, not `.` or `..`, and without a
slash.  Segments of a parsed URL path have this form (the url crate
resolves dot segments and collapses nothing else relevant here). -/
def GoodSeg (s : String) : Prop :=
  s.data ≠ [] ∧ s ≠ "." ∧ s ≠ ".." ∧ ∀ c ∈ s.data, c ≠ '/'

instance (s : String) : Decidable (GoodSeg s) := by
  unfold GoodSeg
  infer_instance

/-- Slash-joined segments. -/
def joinSlash : List String → String
  | [] => ""
  | [s] => s
  | s :: t :: rest => s ++ "/" ++ joinSlash (t :: rest)

/-- Spec-level absolute path rendering: a leading slash followed by the
slash-separated segments. -/
def renderAbs (segs : List String) : String :=
  "/" ++ joinSlash segs

/-- Each segment preceded by a slash. -/
def preSlash : List String → String
  | [] => ""
  | s :: rest => "/" ++ s ++ preSlash rest

/-!  Helper lemmas about the extraction pipeline. -/

/-- An `Ok` of `extractResultSet` forces the result-set shape. -/
theorem extractResultSet_ok_shaped {rs : Json} {ids : List String}
    (h : extractResultSet rs = Except.ok ids) : resultSetShaped rs = true := by
  unfold extractResultSet at h
  unfold resultSetShaped
  cases ho : rs.asObject with
  | none => simp only [ho] at h; exact Except.noConfusion h
  | some o =>
    simp only [ho] at h ⊢
    cases hg : jGet o "results" with
    | none => simp only [hg] at h; exact Except.noConfusion h
    | some r =>
      simp only [hg] at h ⊢
      cases ha : r.asArray with
      | none => simp only [ha] at h; exact Except.noConfusion h
      | some xs => simp only [ha, Option.isSome]

/-- An `Ok` of `extractResultSets` forces every element shape. -/
theorem extractResultSets_ok_all_shaped {arr : List Json} {l : List String}
    (h : extractResultSets arr = Except.ok l) : arr.all resultSetShaped = true := by
  induction arr generalizing l with
  | nil => rfl
  | cons rs rest ih =>
    unfold extractResultSets at h
    cases h1 : extractResultSet rs with
    | error e => simp only [h1] at h; exact Except.noConfusion h
    | ok ids =>
      simp only [h1] at h
      cases h2 : extractResultSets rest with
      | error e => simp only [h2] at h; exact Except.noConfusion h
      | ok more =>
        simp only [List.all_cons, Bool.and_eq_true]
        exact ⟨extractResultSet_ok_shaped h1, ih h2⟩

/-- An `Ok` of the whole extraction forces the full response shape. -/
theorem extract_ok_wellShaped {j : Json} {l : List String}
    (h : extract_ids j = Except.ok l) : wellShaped j = true := by
  unfold extract_ids at h
  unfold wellShaped
  cases ho : j.asObject with
  | none => simp only [ho] at h; exact Except.noConfusion h
  | some top =>
    simp only [ho] at h ⊢
    cases hr : jGet top "response" with
    | none => simp only [hr] at h; exact Except.noConfusion h
    | some resp =>
      simp only [hr] at h ⊢
      cases hro : resp.asObject with
      | none => simp only [hro] at h; exact Except.noConfusion h
      | some respO =>
        simp only [hro] at h ⊢
        cases hrs : jGet respO "resultSets" with
        | none => simp only [hrs] at h; exact Except.noConfusion h
        | some rs =>
          simp only [hrs] at h ⊢
          cases ha : rs.asArray with
          | none => simp only [ha] at h; exact Except.noConfusion h
          | some arr =>
            simp only [ha] at h ⊢
            exact extractResultSets_ok_all_shaped h

/-- The identifier chain on a looked-up object entry, as one match. -/
theorem getD_asStr (o : Option Json) :
    ((o.getD Json.null).asStr) =
      (match o with | some (Json.str s) => some s | _ => none) := by
  cases o with
  | none => rfl
  | some v => cases v <;> rfl

/-- The code-level identifier choice agrees with the spec-level one. -/
theorem pickId_eq_spec (i : Json) : pickId i = spec_pickId i := by
  cases i with
  | obj fs =>
    unfold pickId spec_pickId
    simp only [jIndex, getD_asStr]
    cases h1 : jGet fs "id" with
    | some v1 =>
      cases v1 <;>
        first
          | rfl
          | (cases h2 : jGet fs "variantInternalId" with
             | some v2 =>
               cases v2 <;> rfl
             | none =>
               cases h3 : jGet fs "cohortId" with
               | some v3 => cases v3 <;> rfl
               | none => rfl)
    | none =>
      cases h2 : jGet fs "variantInternalId" with
      | some v2 =>
        cases v2 <;> rfl
      | none =>
        cases h3 : jGet fs "cohortId" with
        | some v3 => cases v3 <;> rfl
        | none => rfl
  | null => rfl
  | bool b => rfl
  | num n => rfl
  | str s => rfl
  | arr xs => rfl

/-- When every result object carries an identifier, `extractResults` is
the `filterMap` of the identifier choice. -/
theorem extractResults_eq {xs : List Json}
    (h : xs.all (fun i => (pickId i).isSome) = true) :
    extractResults xs = Except.ok (xs.filterMap pickId) := by
  induction xs with
  | nil => rfl
  | cons x rest ih =>
    simp only [List.all_cons, Bool.and_eq_true] at h
    cases hp : pickId x with
    | none => rw [hp] at h; exact absurd h.1 (by simp)
    | some i =>
      unfold extractResults
      rw [hp, ih h.2]
      simp only [List.filterMap_cons, hp]

/-- `resultsOf` under the explicit shape hypotheses. -/
theorem resultsOf_eq {rs : Json} {o : List (String × Json)} {r : Json} {xs : List Json}
    (ho : rs.asObject = some o) (hg : jGet o "results" = some r)
    (ha : r.asArray = some xs) : resultsOf rs = xs := by
  unfold resultsOf
  simp only [ho, hg, ha, Option.getD_some]

/-- A shaped result set with all identifiers present extracts to the
`filterMap` of its results. -/
theorem extractResultSet_eq {rs : Json}
    (hs : resultSetShaped rs = true)
    (hids : (resultsOf rs).all (fun i => (pickId i).isSome) = true) :
    extractResultSet rs = Except.ok ((resultsOf rs).filterMap pickId) := by
  unfold resultSetShaped at hs
  cases ho : rs.asObject with
  | none => rw [ho] at hs; exact absurd hs (by simp)
  | some o =>
    rw [ho] at hs
    cases hg : jGet o "results" with
    | none => simp only [hg] at hs; exact Bool.noConfusion hs
    | some r =>
      simp only [hg] at hs
      cases ha : r.asArray with
      | none => rw [ha] at hs; exact absurd hs (by simp)
      | some xs =>
        have hres : resultsOf rs = xs := resultsOf_eq ho hg ha
        rw [hres] at hids ⊢
        unfold extractResultSet
        simp only [ho, hg, ha]
        exact extractResults_eq hids

/-- A list of shaped result sets with all identifiers present extracts
to the flattened `filterMap`s. -/
theorem extractResultSets_eq {arr : List Json}
    (hs : arr.all resultSetShaped = true)
    (hids : arr.all (fun rs => (resultsOf rs).all (fun i => (pickId i).isSome)) = true) :
    extractResultSets arr =
      Except.ok ((arr.map (fun rs => (resultsOf rs).filterMap pickId)).flatten) := by
  induction arr with
  | nil => rfl
  | cons rs rest ih =>
    simp only [List.all_cons, Bool.and_eq_true] at hs hids
    unfold extractResultSets
    rw [extractResultSet_eq hs.1 hids.1, ih hs.2 hids.2]
    simp only [List.map_cons, List.flatten_cons]

/-- `resultSetsOf` under the explicit shape hypotheses. -/
theorem resultSetsOf_eq {j : Json} {top : List (String × Json)} {resp : Json}
    {respO : List (String × Json)} {rs : Json} {arr : List Json}
    (ho : j.asObject = some top) (hr : jGet top "response" = some resp)
    (hro : resp.asObject = some respO) (hrs : jGet respO "resultSets" = some rs)
    (ha : rs.asArray = some arr) : resultSetsOf j = arr := by
  unfold resultSetsOf
  simp only [ho, hr, hro, hrs, ha, Option.getD_some]

/-- A well-shaped response with every identifier present extracts to the
spec-level identifier list. -/
theorem extract_ids_eq {j : Json}
    (h1 : wellShaped j = true) (h2 : allIdsPresent j = true) :
    extract_ids j = Except.ok (spec_extract_ids j) := by
  unfold wellShaped at h1
  cases ho : j.asObject with
  | none => rw [ho] at h1; exact absurd h1 (by simp)
  | some top =>
    rw [ho] at h1
    cases hr : jGet top "response" with
    | none => simp only [hr] at h1; exact Bool.noConfusion h1
    | some resp =>
      simp only [hr] at h1
      cases hro : resp.asObject with
      | none => rw [hro] at h1; exact absurd h1 (by simp)
      | some respO =>
        rw [hro] at h1
        cases hrs : jGet respO "resultSets" with
        | none => simp only [hrs] at h1; exact Bool.noConfusion h1
        | some rs =>
          simp only [hrs] at h1
          cases ha : rs.asArray with
          | none => rw [ha] at h1; exact absurd h1 (by simp)
          | some arr =>
            rw [ha] at h1
            have hsets : resultSetsOf j = arr := resultSetsOf_eq ho hr hro hrs ha
            unfold allIdsPresent at h2
            rw [hsets] at h2
            unfold extract_ids
            simp only [ho, hr, hro, hrs, ha]
            rw [extractResultSets_eq h1 h2]
            unfold spec_extract_ids
            rw [hsets]
            have hfuns : (fun rs2 => List.filterMap pickId (resultsOf rs2)) =
                (fun rs2 => List.filterMap spec_pickId (resultsOf rs2)) :=
              funext fun rs2 => List.filterMap_congr (fun i _ => pickId_eq_spec i)
            rw [hfuns]

/-- On probe failure `get_ids` returns the empty vector. -/
theorem get_ids_of_ping_error {w : World} {root entity : Url} {e : VerifierError}
    (h : ping_url w (url_join root entity) = Except.error e) :
    get_ids w root entity = Except.ok [] := by
  unfold get_ids
  rw [h]

/-- A well-shaped response all of whose `results` arrays are empty
extracts to the empty list. -/
theorem extract_ids_empty_of_no_results {j : Json}
    (h1 : wellShaped j = true) (h2 : allResultsEmpty j = true) :
    extract_ids j = Except.ok [] := by
  unfold allResultsEmpty at h2
  rw [List.all_eq_true] at h2
  have hids : allIdsPresent j = true := by
    unfold allIdsPresent
    rw [List.all_eq_true]
    intro rs hrs
    have hempty := h2 rs hrs
    rw [List.isEmpty_iff] at hempty
    rw [hempty]
    rfl
  rw [extract_ids_eq h1 hids]
  have hnil : spec_extract_ids j = [] := by
    unfold spec_extract_ids
    rw [List.flatten_eq_nil_iff]
    intro l hl
    rw [List.mem_map] at hl
    obtain ⟨rs, hrs, hmap⟩ := hl
    have hempty := h2 rs hrs
    rw [List.isEmpty_iff] at hempty
    rw [← hmap, hempty]
    rfl
  rw [hnil]

/-- Claim C3: for every successfully probed response, if any expected
structural node (top-level object, `response` object, `resultSets`
array, result-set object, or `results` array) is absent or of the wrong
JSON type, the extraction fails (the source aborts, modelled as
`Except.error`) and never returns a normal — possibly empty — list of
identifiers. -/
theorem get_ids_malformed_shape_never_ok (w : World) (root entity : Url) (j : Json)
    (hp : ping_url w (url_join root entity) = Except.ok j)
    (hw : wellShaped j = false) :
    ∀ l : List String, get_ids w root entity ≠ Except.ok l := by
  intro l hok
  unfold get_ids at hok
  rw [hp] at hok
  have := extract_ok_wellShaped hok
  rw [hw] at this
  exact Bool.noConfusion this

/-- Witness for C3 at a concrete malformed (non-object) response. -/
theorem get_ids_malformed_shape_never_ok_witness :
    ping_url malformedWorld (url_join sampleRoot sampleEntity) = Except.ok Json.null ∧
      wellShaped Json.null = false ∧
      get_ids malformedWorld sampleRoot sampleEntity ≠ Except.ok [] :=
  ⟨rfl, rfl,
    get_ids_malformed_shape_never_ok malformedWorld sampleRoot sampleEntity
      Json.null rfl rfl []⟩

/-- Claim C5: for every well-shaped response with every identifier
present, the extraction reads each result object's `id`, else
`variantInternalId`, else `cohortId`, in that priority order, and
returns the identifiers flattened in encounter order across
`resultSets` and `results` — the spec-level extraction function. -/
theorem extract_ids_priority_order (j : Json)
    (h1 : wellShaped j = true) (h2 : allIdsPresent j = true) :
    extract_ids j = Except.ok (spec_extract_ids j) :=
  extract_ids_eq h1 h2

/-- Witness for C5 at the example response of the spec: it yields
`["a", "b"]` in that order. -/
theorem extract_ids_priority_order_witness :
    wellShaped exampleResponse = true ∧
      extract_ids exampleResponse = Except.ok ["a", "b"] :=
  ⟨rfl, (extract_ids_priority_order exampleResponse rfl rfl).trans rfl⟩

/-- Claim C9: for every root and entity-relative URL, if probing the
composed URL fails with any error, `get_ids` returns the empty sequence
rather than propagating the failure. -/
theorem get_ids_probe_failure_empty (w : World) (root entity : Url) (e : VerifierError)
    (h : ping_url w (url_join root entity) = Except.error e) :
    get_ids w root entity = Except.ok [] :=
  get_ids_of_ping_error h

/-- Witness for C9 at a concrete transport-failing world. -/
theorem get_ids_probe_failure_empty_witness :
    ping_url errWorld (url_join sampleRoot sampleEntity) =
        Except.error (VerifierError.RequestError false) ∧
      get_ids errWorld sampleRoot sampleEntity = Except.ok [] :=
  ⟨rfl,
    get_ids_probe_failure_empty errWorld sampleRoot sampleEntity
      (VerifierError.RequestError false) rfl⟩

/-- Claim C10: `get_ids` returns the identical observable value — the
empty vector — both when the probe fails and when the probe succeeds
with a well-shaped response whose every `results` array is empty, so the
caller cannot distinguish the two cases from the return value alone. -/
theorem get_ids_unreachable_vs_empty_indistinguishable
    (w1 w2 : World) (root entity : Url) (e : VerifierError) (j : Json)
    (h1 : ping_url w1 (url_join root entity) = Except.error e)
    (h2 : ping_url w2 (url_join root entity) = Except.ok j)
    (h3 : wellShaped j = true) (h4 : allResultsEmpty j = true) :
    get_ids w1 root entity = Except.ok [] ∧
      get_ids w2 root entity = get_ids w1 root entity := by
  have ha : get_ids w1 root entity = Except.ok [] := get_ids_of_ping_error h1
  have hb : get_ids w2 root entity = Except.ok [] := by
    unfold get_ids
    rw [h2]
    exact extract_ids_empty_of_no_results h3 h4
  exact ⟨ha, hb.trans ha.symm⟩

/-- Witness for C10 at a transport-failing world and a world answering
the empty well-shaped response. -/
theorem get_ids_unreachable_vs_empty_indistinguishable_witness :
    get_ids errWorld sampleRoot sampleEntity = Except.ok [] ∧
      get_ids emptyWorld sampleRoot sampleEntity = get_ids errWorld sampleRoot sampleEntity :=
  get_ids_unreachable_vs_empty_indistinguishable errWorld emptyWorld
    sampleRoot sampleEntity (VerifierError.RequestError false) emptyResponse
    rfl rfl rfl rfl

/-- Claim C7: for every URL whose GET returns a success (2xx) status,
the probe parses the response body as JSON and returns exactly that
document; an unparsable body yields `ResponseIsNotJson`. -/
theorem ping_url_success_returns_body (w : World) (u : Url) (r : HttpResponse)
    (hg : w.get u = TransportResult.ok r) (hs : isSuccess r.status = true) :
    (∀ j : Json, r.body = some j → ping_url w u = Except.ok j) ∧
      (r.body = none → ping_url w u = Except.error VerifierError.ResponseIsNotJson) := by
  constructor
  · intro j hb
    unfold ping_url
    rw [hg]
    simp only [hs, if_true]
    unfold parseBody
    rw [hb]
  · intro hb
    unfold ping_url
    rw [hg]
    simp only [hs, if_true]
    unfold parseBody
    rw [hb]

/-- Witness for C7 at a world answering 200 with a JSON body. -/
theorem ping_url_success_returns_body_witness :
    ping_url okWorld sampleRoot = Except.ok sampleJson :=
  (ping_url_success_returns_body okWorld sampleRoot ⟨200, some sampleJson⟩
      rfl rfl).1 sampleJson rfl

/-- Claim C8: for every URL whose GET returns a non-success status other
than 405, the probe returns `UnresponsiveEndpoint` carrying the
offending URL, and no POST fallback is attempted (the result does not
depend on the world's POST behaviour). -/
theorem ping_url_other_status_unresponsive (w : World) (u : Url) (r : HttpResponse)
    (hg : w.get u = TransportResult.ok r) (hs : isSuccess r.status = false)
    (h405 : r.status ≠ 405) :
    ping_url w u = Except.error (VerifierError.UnresponsiveEndpoint u) ∧
      (∀ w2 : World, w2.get = w.get →
        ping_url w2 u = Except.error (VerifierError.UnresponsiveEndpoint u)) := by
  have hbeq : (r.status == 405) = false := by simpa using h405
  have key : ∀ w3 : World, w3.get u = TransportResult.ok r →
      ping_url w3 u = Except.error (VerifierError.UnresponsiveEndpoint u) := by
    intro w3 hg3
    unfold ping_url
    rw [hg3]
    simp only [hs, hbeq, Bool.false_eq_true, if_false]
  exact ⟨key w hg, fun w2 hw2 => key w2 (by rw [hw2, hg])⟩

/-- Witness for C8 at a world answering 404. -/
theorem ping_url_other_status_unresponsive_witness :
    ping_url notFoundWorld sampleRoot =
      Except.error (VerifierError.UnresponsiveEndpoint sampleRoot) :=
  (ping_url_other_status_unresponsive notFoundWorld sampleRoot ⟨404, none⟩
      rfl rfl (by decide)).1

/-- Counterexample to claim C2 as stated: a URL whose GET returns 405
and whose POST fails at the transport level does NOT yield
`UnresponsiveEndpoint` — the source returns `RequestError` wrapping the
transport failure. -/
theorem ping_url_post_transport_failure_cex :
    ping_url postFailWorld sampleRoot =
        Except.error (VerifierError.RequestError false) ∧
      ping_url postFailWorld sampleRoot ≠
        Except.error (VerifierError.UnresponsiveEndpoint sampleRoot) := by
  refine ⟨rfl, ?_⟩
  intro h
  rw [show ping_url postFailWorld sampleRoot =
      Except.error (VerifierError.RequestError false) from rfl] at h
  exact VerifierError.noConfusion (Except.error.inj h)

/-- Claim C2 (amended): for every URL whose GET returns exactly 405, the
probe issues a POST to the same URL; a 2xx POST answer has its body
parsed as JSON and returned (unparsable body: `ResponseIsNotJson`); a
non-success POST status yields `UnresponsiveEndpoint`; a POST transport
failure yields `RequestError` wrapping the failure (not
`UnresponsiveEndpoint`). -/
theorem ping_url_405_fallback (w : World) (u : Url) (r : HttpResponse)
    (hg : w.get u = TransportResult.ok r) (hs : isSuccess r.status = false)
    (h405 : r.status = 405) :
    (∀ (r2 : HttpResponse) (j : Json), w.post u = TransportResult.ok r2 →
        isSuccess r2.status = true → r2.body = some j →
        ping_url w u = Except.ok j) ∧
      (∀ r2 : HttpResponse, w.post u = TransportResult.ok r2 →
        isSuccess r2.status = false →
        ping_url w u = Except.error (VerifierError.UnresponsiveEndpoint u)) ∧
      (∀ b : Bool, w.post u = TransportResult.err b →
        ping_url w u = Except.error (VerifierError.RequestError b)) := by
  have hbeq : (r.status == 405) = true := by simpa using h405
  refine ⟨?_, ?_, ?_⟩
  · intro r2 j hp hs2 hb
    unfold ping_url
    rw [hg]
    simp only [hs, hbeq, Bool.false_eq_true, if_false, if_true]
    rw [hp]
    simp only [hs2, if_true]
    unfold parseBody
    rw [hb]
  · intro r2 hp hs2
    unfold ping_url
    rw [hg]
    simp only [hs, hbeq, Bool.false_eq_true, if_false, if_true]
    rw [hp]
    simp only [hs2, Bool.false_eq_true, if_false]
  · intro b hp
    unfold ping_url
    rw [hg]
    simp only [hs, hbeq, Bool.false_eq_true, if_false, if_true]
    rw [hp]

/-- Witness for the amended C2 at a world answering 405 on GET and 200
with a JSON body on POST. -/
theorem ping_url_405_fallback_witness :
    ping_url fallbackWorld sampleRoot = Except.ok sampleJson :=
  (ping_url_405_fallback fallbackWorld sampleRoot ⟨405, none⟩ rfl rfl rfl).1
    ⟨200, some sampleJson⟩ sampleJson rfl rfl rfl

/-- The model reproduces the repository unit test `test_replace_vars`:
one binding substitutes the placeholder. -/
theorem replace_vars_matches_repo_test :
    (replace_vars googleUrl [("id", "my_id")]).map Url.toString =
      some "https://google.com/biosamples/my_id" := by
  decide

/-- Claim C1 (code bug): with two bindings matching the distinct
placeholders `{a}` and `{b}`, the source loses the first substitution —
each loop iteration restarts from the original serialized URL, so the
returned URL still carries the encoded `{a}` placeholder instead of the
value `1`. -/
theorem replace_vars_loses_earlier_substitution :
    replace_vars braceUrl [("a", "1"), ("b", "2")] =
        some { braceUrl with path := "/%7Ba%7D/2" } ∧
      replace_vars braceUrl [("a", "1"), ("b", "2")] ≠
        some { braceUrl with path := "/1/2" } := by
  constructor
  · decide
  · decide

/-- The report string the source folds up: every message, newline
separated. -/
theorem foldl_report (errs : List VError) (init : String) :
    errs.foldl (fun er e => er ++ e.message ++ "\n") init =
      init ++ concatReports errs := by
  induction errs generalizing init with
  | nil => simp [concatReports]
  | cons e rest ih =>
    simp only [List.foldl_cons, concatReports, ih]
    rw [String.append_assoc, String.append_assoc, String.append_assoc e.message]

/-- Counterexample to claim C6 as stated: the violation report inside
`BadResponse` contains only each violation's message and a newline; the
kind and the instance path of the violation (here `required` and `/x`)
do not occur in it, so violations are not rendered as
`kind — message (instance_path)`. -/
theorem valid_schema_report_omits_kind_and_path :
    schemaCex.validateRaw Json.null =
        some [⟨"required", "missing property", "/x"⟩] ∧
      valid_schema schemaCex Json.null =
        Except.error (VerifierError.BadResponse "missing property\n") ∧
      containsStr "missing property\n" "/x" = false ∧
      containsStr "missing property\n" "required" = false ∧
      containsStr "missing property\n"
          (claimRender ⟨"required", "missing property", "/x"⟩) = false := by
  refine ⟨rfl, rfl, ?_, ?_, ?_⟩ <;> decide

/-- Claim C6 (amended): `valid_schema` returns the instance unchanged
when it conforms, and otherwise returns a `BadResponse` aggregating
every violation (not just the first), each rendered as its message
followed by a newline separator; kind and instance path appear only in
the log output, not in the returned report. -/
theorem valid_schema_aggregates_all_messages (s : JSONSchema) (j : Json) :
    (s.validateRaw j = none → valid_schema s j = Except.ok j) ∧
      (∀ errs : List VError, s.validateRaw j = some errs →
        valid_schema s j =
          Except.error (VerifierError.BadResponse (concatReports errs))) := by
  constructor
  · intro h
    unfold valid_schema
    rw [h]
  · intro errs h
    unfold valid_schema
    simp only [h]
    rw [foldl_report errs "", String.empty_append]

/-- Witness for the amended C6: a conforming instance comes back
unchanged; a rejected instance yields the message-plus-newline report,
with both violations of a two-violation schema present. -/
theorem valid_schema_aggregates_all_messages_witness :
    valid_schema schemaOk sampleJson = Except.ok sampleJson ∧
      valid_schema schemaCex sampleJson =
        Except.error (VerifierError.BadResponse "missing property\n") :=
  ⟨(valid_schema_aggregates_all_messages schemaOk sampleJson).1 rfl,
    ((valid_schema_aggregates_all_messages schemaCex sampleJson).2
        [⟨"required", "missing property", "/x"⟩] rfl).trans rfl⟩

/-- The slash split after a leading slash. -/
theorem splitOnSlash_slash (cs : List Char) :
    splitOnSlash ('/' :: cs) = [] :: splitOnSlash cs := by
  simp [splitOnSlash]

/-- The slash split of slash-free characters. -/
theorem splitOnSlash_no_slash (xs : List Char) (h : ∀ c ∈ xs, c ≠ '/') :
    splitOnSlash xs = [xs] := by
  induction xs with
  | nil => rfl
  | cons c cs ih =>
    have hc : c ≠ '/' := h c (List.mem_cons_self c cs)
    simp only [splitOnSlash]
    rw [if_neg hc, ih (fun d hd => h d (List.mem_cons_of_mem c hd))]

/-- The slash split around the first slash. -/
theorem splitOnSlash_append_slash (xs ys : List Char) (h : ∀ c ∈ xs, c ≠ '/') :
    splitOnSlash (xs ++ '/' :: ys) = xs :: splitOnSlash ys := by
  induction xs with
  | nil => simpa using splitOnSlash_slash ys
  | cons c cs ih =>
    have hc : c ≠ '/' := h c (List.mem_cons_self c cs)
    rw [List.cons_append]
    simp only [splitOnSlash]
    rw [if_neg hc, ih (fun d hd => h d (List.mem_cons_of_mem c hd))]

/-- `joinSlash` of a non-empty list via `preSlash`. -/
theorem joinSlash_cons (s : String) (rest : List String) :
    joinSlash (s :: rest) = s ++ preSlash rest := by
  induction rest generalizing s with
  | nil => exact (String.append_empty s).symm
  | cons t more ih =>
    show s ++ "/" ++ joinSlash (t :: more) = _
    rw [ih t]
    show s ++ "/" ++ (t ++ preSlash more) = s ++ ("/" ++ t ++ preSlash more)
    simp [String.append_assoc]

/-- `lastChar` ignores a prefix before a non-empty suffix. -/
theorem lastChar_append (xs ys : List Char) (h : ys ≠ []) :
    lastChar (xs ++ ys) = lastChar ys := by
  cases ys with
  | nil => exact absurd rfl h
  | cons y t =>
    unfold lastChar
    rw [List.foldl_append]
    simp [List.foldl_cons]

/-- A slash-free fragment does not end in a slash. -/
theorem lastChar_ne_slash (cs : List Char) (h : ∀ c ∈ cs, c ≠ '/') :
    lastChar cs ≠ some '/' := by
  have aux : ∀ (ds : List Char) (a : Option Char), (∀ c ∈ ds, c ≠ '/') →
      a ≠ some '/' → ds.foldl (fun _ c => some c) a ≠ some '/' := by
    intro ds
    induction ds with
    | nil => intro a _ ha; exact ha
    | cons d ds2 ih =>
      intro a hall ha
      rw [List.foldl_cons]
      exact ih (some d) (fun c hc => hall c (List.mem_cons_of_mem d hc))
        (by simpa using hall d (List.mem_cons_self d ds2))
  exact aux cs none h (by simp)

/-- Good segments survive `pieceToComp` as normal components. -/
theorem pieceToComp_good (s : String) (h : GoodSeg s) :
    pieceToComp s.data = PComp.normal s := by
  obtain ⟨hne, hdot, hdots, hsl⟩ := h
  unfold pieceToComp
  rw [if_neg (fun hd => hdot (String.ext (hd.trans rfl))),
    if_neg (fun hd => hdots (String.ext (hd.trans rfl)))]

/-- Filtering out `cur` components is the identity on normals. -/
theorem filter_ne_cur_normals (segs : List String) :
    (segs.map PComp.normal).filter (fun c => c ≠ PComp.cur) = segs.map PComp.normal := by
  induction segs with
  | nil => rfl
  | cons s rest ih =>
    simp only [List.map_cons, List.filter_cons]
    simp [ih]

/-- The filtered slash split of a rendered segment list. -/
theorem splitOnSlash_joinSlash (segs : List String) (h : ∀ s ∈ segs, GoodSeg s) :
    (splitOnSlash (joinSlash segs).data).filter (fun p => p ≠ []) = segs.map String.data := by
  induction segs with
  | nil => rfl
  | cons s rest ih =>
    cases rest with
    | nil =>
      have hs := h s (List.mem_cons_self s [])
      show (splitOnSlash s.data).filter (fun p => p ≠ []) = [s.data]
      rw [splitOnSlash_no_slash s.data hs.2.2.2]
      simp [List.filter_cons, hs.1]
    | cons t more =>
      have hs := h s (List.mem_cons_self s (t :: more))
      have hrest : ∀ x ∈ t :: more, GoodSeg x := fun x hx => h x (List.mem_cons_of_mem s hx)
      show (splitOnSlash (s ++ "/" ++ joinSlash (t :: more)).data).filter (fun p => p ≠ []) = _
      have hdata : (s ++ "/" ++ joinSlash (t :: more)).data
          = s.data ++ '/' :: (joinSlash (t :: more)).data := by
        rw [String.data_append, String.data_append]
        simp [List.append_assoc]
      rw [hdata, splitOnSlash_append_slash _ _ hs.2.2.2]
      simp only [List.filter_cons]
      rw [ih hrest]
      simp [hs.1]

/-- `pathComponents` of a rendered absolute path: the root component
followed by the segments as normal components. -/
theorem pathComponents_renderAbs (segs : List String) (h : ∀ s ∈ segs, GoodSeg s) :
    pathComponents (renderAbs segs) = PComp.root :: segs.map PComp.normal := by
  have hdata : (renderAbs segs).data = '/' :: (joinSlash segs).data := by
    show ("/" ++ joinSlash segs).data = _
    rw [String.data_append]
    rfl
  unfold pathComponents
  simp only [hdata]
  unfold filteredComps
  rw [splitOnSlash_slash]
  have hfilter : (([] : List Char) :: splitOnSlash (joinSlash segs).data).filter
        (fun p => p ≠ []) =
      (splitOnSlash (joinSlash segs).data).filter (fun p => p ≠ []) := by
    simp
  rw [hfilter, splitOnSlash_joinSlash segs h, List.map_map]
  have hmap : segs.map (pieceToComp ∘ String.data) = segs.map PComp.normal :=
    List.map_congr_left (fun s hs => pieceToComp_good s (h s hs))
  rw [hmap, filter_ne_cur_normals]

/-- Folding normal-component pushes over a non-empty buffer not ending
in a slash appends each segment behind a slash. -/
theorem foldl_pushComp_normals (segs : List String) (h : ∀ s ∈ segs, GoodSeg s) :
    ∀ acc : String, acc.data ≠ [] → lastChar acc.data ≠ some '/' →
      (segs.map PComp.normal).foldl pushComp acc = acc ++ preSlash segs := by
  induction segs with
  | nil => intro acc _ _; exact (String.append_empty acc).symm
  | cons s rest ih =>
    intro acc hne hsl
    have hs := h s (List.mem_cons_self s rest)
    simp only [List.map_cons, List.foldl_cons]
    have hstep : pushComp acc (PComp.normal s) = acc ++ "/" ++ s := by
      show (if acc.data = [] then compStr (PComp.normal s)
        else if lastChar acc.data = some '/' then acc ++ compStr (PComp.normal s)
        else acc ++ "/" ++ compStr (PComp.normal s)) = acc ++ "/" ++ s
      rw [if_neg hne, if_neg hsl]
      rfl
    rw [hstep]
    have hne2 : (acc ++ "/" ++ s).data ≠ [] := by
      rw [String.data_append]
      simp
    have hsl2 : lastChar (acc ++ "/" ++ s).data ≠ some '/' := by
      rw [String.data_append]
      rw [lastChar_append _ _ hs.1]
      exact lastChar_ne_slash s.data hs.2.2.2
    rw [ih (fun x hx => h x (List.mem_cons_of_mem s hx)) _ hne2 hsl2]
    show acc ++ "/" ++ s ++ preSlash rest = acc ++ ("/" ++ s ++ preSlash rest)
    simp [String.append_assoc]

/-- Rendering root-plus-normal components reproduces the absolute
path. -/
theorem renderComps_root_normals (segs : List String) (h : ∀ s ∈ segs, GoodSeg s) :
    renderComps (PComp.root :: segs.map PComp.normal) = renderAbs segs := by
  cases segs with
  | nil => rfl
  | cons s rest =>
    have hs := h s (List.mem_cons_self s rest)
    unfold renderComps
    simp only [List.map_cons, List.foldl_cons]
    have h1 : pushComp "" PComp.root = "/" := rfl
    rw [h1]
    have hstep : pushComp "/" (PComp.normal s) = "/" ++ s := by
      show (if ("/" : String).data = [] then compStr (PComp.normal s)
        else if lastChar ("/" : String).data = some '/' then "/" ++ compStr (PComp.normal s)
        else "/" ++ "/" ++ compStr (PComp.normal s)) = "/" ++ s
      rw [if_neg (by decide), if_pos (by decide)]
      rfl
    rw [hstep]
    have hne : ("/" ++ s).data ≠ [] := by
      rw [String.data_append]
      simp
    have hsl : lastChar ("/" ++ s).data ≠ some '/' := by
      rw [String.data_append]
      show lastChar (['/'] ++ s.data) ≠ some '/'
      rw [lastChar_append _ _ hs.1]
      exact lastChar_ne_slash s.data hs.2.2.2
    rw [foldl_pushComp_normals rest (fun x hx => h x (List.mem_cons_of_mem s hx)) _ hne hsl]
    show "/" ++ s ++ preSlash rest = "/" ++ joinSlash (s :: rest)
    rw [joinSlash_cons]
    rw [String.append_assoc]

/-- Claim C4: for all root URLs and relative URLs over normalized
absolute paths, `url_join` keeps the root's scheme, username, password,
host, port, query and fragment unchanged — only the path of the clone is
rewritten — and the new path is the root's segments followed by the
relative URL's segments with its leading root marker excluded. -/
theorem url_join_preserves_root (R P : Url) (rsegs psegs : List String)
    (hr : ∀ s ∈ rsegs, GoodSeg s) (hp : ∀ s ∈ psegs, GoodSeg s)
    (hRp : R.path = renderAbs rsegs) (hPp : P.path = renderAbs psegs) :
    (url_join R P).scheme = R.scheme ∧
      (url_join R P).username = R.username ∧
      (url_join R P).password = R.password ∧
      (url_join R P).host = R.host ∧
      (url_join R P).port = R.port ∧
      (url_join R P).query = R.query ∧
      (url_join R P).fragment = R.fragment ∧
      (url_join R P).path = renderAbs (rsegs ++ psegs) := by
  refine ⟨rfl, rfl, rfl, rfl, rfl, rfl, rfl, ?_⟩
  show renderComps (pathComponents R.path ++ (pathComponents P.path).drop 1)
      = renderAbs (rsegs ++ psegs)
  rw [hRp, hPp, pathComponents_renderAbs rsegs hr, pathComponents_renderAbs psegs hp]
  have hall : ∀ s ∈ rsegs ++ psegs, GoodSeg s := by
    intro s hs
    rcases List.mem_append.mp hs with h1 | h2
    · exact hr s h1
    · exact hp s h2
  calc renderComps ((PComp.root :: rsegs.map PComp.normal)
        ++ (PComp.root :: psegs.map PComp.normal).drop 1)
      = renderComps (PComp.root :: (rsegs ++ psegs).map PComp.normal) := by
        simp [List.map_append]
    _ = renderAbs (rsegs ++ psegs) := renderComps_root_normals _ hall

/-- Witness for C4: joining `https://x.com/a/b` with the relative path
`/c/d` gives the path `/a/b/c/d` and keeps scheme and host. -/
theorem url_join_preserves_root_witness :
    (url_join sampleRoot sampleEntity).path = renderAbs ["a", "b", "c", "d"] ∧
      (url_join sampleRoot sampleEntity).host = sampleRoot.host ∧
      (url_join sampleRoot sampleEntity).scheme = sampleRoot.scheme := by
  have h := url_join_preserves_root sampleRoot sampleEntity ["a", "b"] ["c", "d"]
    (by decide) (by decide) rfl rfl
  exact ⟨h.2.2.2.2.2.2.2, h.2.2.2.1, h.1⟩
